import Mathlib

/-!
Shallow embedding of the cabbage worker (src/cabbage/worker.py) and of the
job-store claim protocol described by the specification, together with
theorems settling the frozen claims about this program.

Python-to-Lean conventions used throughout:
* `time.time()` is modelled by a clock stream `clock : Nat → Int`; the n-th
  call to `time.time()` made by the worker returns `clock n`, and the worker
  state carries the count `tick` of calls made so far.
* Exceptions become explicit `Option`/sum results (`WorkerExc`).
* The asynchronous signal handler is modelled by an oracle
  `stopAt : Nat → Bool` giving the value the `_stop_requested` flag would be
  found to hold at the n-th read of the flag, ORed with the flag already
  stored in the worker state (the handler only ever sets the flag, so the
  oracle is monotone for any real signal delivery; monotonicity is taken as a
  hypothesis where a claim needs it).
* Store interactions (`listen_for_jobs`, `get_jobs`, `finish_job`,
  `wait_for_jobs`) are recorded as an event trace; the lazy `get_jobs`
  generator is modelled by the list of jobs it would yield if pulled, with
  the worker consuming a prefix of that list.
-/

namespace Cabbage

/-- `jobs.Status` values used by the worker: `DONE` and `ERROR`. -/
inductive JStatus where
  | done : JStatus
  | error : JStatus
deriving DecidableEq, Repr

/-- Keyword arguments of a job: a JSON-style mapping, modelled as an
association list from argument names to integer values. -/
abbrev KW := List (String × Int)

/-- A `jobs.Job` as the worker uses it: `id`, `task_name`, `kwargs`
(the `queue` travels separately with the worker). -/
structure Job where
  id : Int
  task_name : String
  kwargs : KW
deriving DecidableEq, Repr

/-- The three ways `task(**job.kwargs)` can terminate: return normally,
raise `JobRetry(scheduled_at)` (src/procrastinate/exceptions.py), or raise
any other exception. Both raising cases are subclasses of `Exception`. -/
inductive TaskOutcome where
  | success : TaskOutcome
  | raiseRetry (scheduled_at : Int) : TaskOutcome
  | raiseExc : TaskOutcome
deriving DecidableEq, Repr

/-- A registered task: its `name`, its `queue`, and its executable logic. -/
structure Task where
  name : String
  queue : String
  run : KW → TaskOutcome

/-- `tasks.TaskManager` as the worker sees it: the mapping `tasks` from task
names to tasks (the job store reference is modelled separately). -/
structure TaskManager where
  tasks : List (String × Task)

/-- Dictionary lookup `self._task_manager.tasks[task_name]`;
`none` is the `KeyError` case. -/
def TaskManager.lookup (tm : TaskManager) (name : String) : Option Task :=
  tm.tasks.lookup name

/-- Exceptions escaping `Worker.run_job`: `TaskNotFound(job)` when the task
name is absent from the registry, `JobError` when task execution raised. -/
inductive WorkerExc where
  | taskNotFound (job : Job) : WorkerExc
  | jobError : WorkerExc
deriving DecidableEq, Repr

/-- The worker's `self.log_context` dictionary once populated by `run_job`:
the keys written at job start, plus the two keys (`end_timestamp`,
`duration_seconds`) added when the job finishes. -/
structure LogContext where
  queue : String
  task_name : String
  id : Int
  kwargs : KW
  start_timestamp : Int
  end_timestamp : Option Int
  duration_seconds : Option Int
deriving DecidableEq, Repr

/-- Mutable state of a `Worker` instance: the `_stop_requested` flag, the
`log_context` dictionary (`none` models the initial empty dict `{}`), and the
count of `time.time()` calls made so far (the clock-stream position). -/
structure WorkerState where
  stop_requested : Bool
  log_context : Option LogContext
  tick : Nat
deriving DecidableEq, Repr

/-- Immutable configuration of a `Worker`: its task manager and its queue. -/
structure Worker where
  task_manager : TaskManager
  queue : String

/-- `Worker.__init__`: `_stop_requested = False`, `log_context = {}`;
no `time.time()` call has been made yet. -/
def Worker.initState : WorkerState :=
  { stop_requested := false, log_context := none, tick := 0 }

/-- The `log_context` dictionary as assigned at the start of `run_job`,
before `task(**job.kwargs)` executes: queue, task name, job id, kwargs and
the `start_timestamp` sample. -/
def startCtx (task : Task) (job : Job) (start_timestamp : Int) : LogContext :=
  { queue := task.queue
    task_name := task.name
    id := job.id
    kwargs := job.kwargs
    start_timestamp := start_timestamp
    end_timestamp := none
    duration_seconds := none }

/-- The in-place update of `log_context` performed when the job finishes
(both on the success and on the exception path): `end_timestamp` is set to
the fresh `time.time()` sample and `duration_seconds` to
`end_time - start_time`, where `start_time` is the sample taken at the very
start of `run_job` (one call before the stored `start_timestamp`). -/
def endCtx (ctx : LogContext) (start_time end_time : Int) : LogContext :=
  { ctx with
    end_timestamp := some end_time
    duration_seconds := some (end_time - start_time) }

/-- The worker state while `task(**job.kwargs)` is executing inside
`run_job`, together with the resolved task: `run_job` has sampled
`start_time := time.time()` (at position `s.tick`) and assigned
`self.log_context` with `start_timestamp := time.time()` (position
`s.tick + 1`). `none` is the `TaskNotFound` case: the task name is absent
from `self._task_manager.tasks` and no state change has happened. -/
def run_job_mid (tm : TaskManager) (clock : Nat → Int) (s : WorkerState)
    (job : Job) : Option (WorkerState × Task) :=
  match tm.lookup job.task_name with
  | none => none
  | some task =>
      some ({ s with
                log_context := some (startCtx task job (clock (s.tick + 1)))
                tick := s.tick + 2 },
            task)

/-- `Worker.run_job`: resolve the task (`KeyError` → `TaskNotFound(job)`),
record the start context, execute the task, and on both the success and the
exception path add `end_timestamp` and `duration_seconds` to the context;
any exception from the task (including `JobRetry`) is caught by
`except Exception` and re-raised as `JobError`. -/
def Worker.run_job (tm : TaskManager) (clock : Nat → Int) (s : WorkerState)
    (job : Job) : WorkerState × Option WorkerExc :=
  match run_job_mid tm clock s job with
  | none => (s, some (.taskNotFound job))
  | some (sm, task) =>
      let start_time := clock s.tick
      let end_time := clock sm.tick
      let sEnd : WorkerState :=
        { sm with
            log_context := sm.log_context.map (fun c => endCtx c start_time end_time)
            tick := sm.tick + 1 }
      match task.run job.kwargs with
      | .success => (sEnd, none)
      | .raiseRetry _ => (sEnd, some .jobError)
      | .raiseExc => (sEnd, some .jobError)

/-- The exception outcome of `run_job` depends only on the registry and the
job: `none` for normal return, `JobError` when the task raised,
`TaskNotFound` when the task name is not registered. -/
def jobOutcome (tm : TaskManager) (job : Job) : Option WorkerExc :=
  match tm.lookup job.task_name with
  | none => some (.taskNotFound job)
  | some task =>
      match task.run job.kwargs with
      | .success => none
      | .raiseRetry _ => some .jobError
      | .raiseExc => some .jobError

/-- `Worker.process_jobs`: iterate over the jobs `get_jobs` yields. For each
job: `status = ERROR`; `run_job`; on normal return `status = DONE`; `except
JobError: pass`; `finally: finish_job(job, status)` (recorded in the result
list, in order); any other exception (`TaskNotFound`) propagates after the
`finally` clause ran. After each completed iteration the loop reads
`self._stop_requested` (the n-th read consults the signal oracle at index
`n`) and breaks when it is set. -/
def Worker.process_jobs (tm : TaskManager) (clock : Nat → Int)
    (stopAt : Nat → Bool) :
    Nat → WorkerState → List Job →
      WorkerState × List (Job × JStatus) × Option WorkerExc
  | _, s, [] => (s, [], none)
  | n, s, job :: rest =>
      let r := Worker.run_job tm clock s job
      match r.2 with
      | some (.taskNotFound j) =>
          (r.1, [(job, .error)], some (.taskNotFound j))
      | some .jobError =>
          let fl := r.1.stop_requested || stopAt n
          let s1 : WorkerState := { r.1 with stop_requested := fl }
          if fl then (s1, [(job, .error)], none)
          else
            let rec1 := Worker.process_jobs tm clock stopAt (n + 1) s1 rest
            (rec1.1, (job, .error) :: rec1.2.1, rec1.2.2)
      | none =>
          let fl := r.1.stop_requested || stopAt n
          let s1 : WorkerState := { r.1 with stop_requested := fl }
          if fl then (s1, [(job, .done)], none)
          else
            let rec1 := Worker.process_jobs tm clock stopAt (n + 1) s1 rest
            (rec1.1, (job, .done) :: rec1.2.1, rec1.2.2)

/-- `Worker.stop(signum, frame)`: set `self._stop_requested` and log the
current `self.log_context`; the arguments are unused and nothing else
changes. Returns the new state and the logged context. -/
def Worker.stop (signum : Int) (frame : Option Unit) (s : WorkerState) :
    WorkerState × Option LogContext :=
  match signum, frame with
  | _, _ => ({ s with stop_requested := true }, s.log_context)

/-- Job-store interactions performed by the worker, recorded as a trace:
`listen_for_jobs(queue)`, installing the shutdown handler
(`signals.on_stop(self.stop)`), one `get_jobs(queue)` call per batch,
`finish_job(job, status)` acknowledgements, and `wait_for_jobs(timeout)`. -/
inductive StoreEvent where
  | listen (queue : String) : StoreEvent
  | installHandler : StoreEvent
  | getJobs (queue : String) : StoreEvent
  | finish (job : Job) (status : JStatus) : StoreEvent
  | wait (timeout : Int) : StoreEvent
deriving DecidableEq, Repr

/-- How a (finitely modelled) execution of `Worker.run` ended: the loop broke
because `_stop_requested` was set (`stopped`), an exception escaped the loop
(`exc`), or the supplied list of batches ran out while the real loop would
keep iterating (`fuelOut`, an artifact of modelling the unbounded loop with
finitely many `get_jobs` results). -/
inductive RunResult where
  | stopped : RunResult
  | fuelOut : RunResult
  | exc (e : WorkerExc) : RunResult
deriving DecidableEq, Repr

/-- The finish events of one batch, in acknowledgement order. -/
def finishEvents (fins : List (Job × JStatus)) : List StoreEvent :=
  fins.map (fun p => StoreEvent.finish p.1 p.2)

/-- The `while True` loop body of `Worker.run`: `process_jobs()`; if
`self._stop_requested` then break; else `wait_for_jobs(timeout)` and repeat.
`batches` supplies the jobs each successive `get_jobs(queue)` call would
yield; `n` is the index of the next read of the stop flag (the loop's own
read, like the in-batch reads, consults the signal oracle). -/
def Worker.run_loop (w : Worker) (clock : Nat → Int) (stopAt : Nat → Bool)
    (timeout : Int) :
    Nat → WorkerState → List (List Job) →
      WorkerState × List StoreEvent × RunResult
  | _, s, [] => (s, [], .fuelOut)
  | n, s, b :: bs =>
      let r := Worker.process_jobs w.task_manager clock stopAt n s b
      let evs1 := StoreEvent.getJobs w.queue :: finishEvents r.2.1
      match r.2.2 with
      | some ex => (r.1, evs1, .exc ex)
      | none =>
          let m := n + r.2.1.length
          let fl := r.1.stop_requested || stopAt m
          let s1 : WorkerState := { r.1 with stop_requested := fl }
          if fl then (s1, evs1, .stopped)
          else
            let rec1 := Worker.run_loop w clock stopAt timeout (m + 1) s1 bs
            (rec1.1, evs1 ++ StoreEvent.wait timeout :: rec1.2.1, rec1.2.2)

/-- `Worker.run(timeout)`: `listen_for_jobs(queue)` first, then enter the
`signals.on_stop(self.stop)` context (install the shutdown handler), then
the loop. -/
def Worker.run (w : Worker) (clock : Nat → Int) (stopAt : Nat → Bool)
    (timeout : Int) (s : WorkerState) (batches : List (List Job)) :
    WorkerState × List StoreEvent × RunResult :=
  let r := Worker.run_loop w clock stopAt timeout 0 s batches
  (r.1, StoreEvent.listen w.queue :: StoreEvent.installHandler :: r.2.1, r.2.2)

namespace Store

/-- Modelled from the spec: persisted job statuses of the Job Store
(`src/cabbage/store.py` is not part of the provided sources):
`todo`, `doing`, `succeeded`, `failed`. -/
inductive JobState where
  | todo : JobState
  | doing : JobState
  | succeeded : JobState
  | failed : JobState
deriving DecidableEq, Repr

/-- Modelled from the spec: a persisted Job row of the Job Store. Its id is
its position in the store's append-only list of rows (store-assigned,
monotonically increasing, never reused). -/
structure SJob where
  task_name : String
  queue : String
  kwargs : KW
  lock : Option String
  scheduled_at : Option Nat
  status : JobState
  attempts : Nat
deriving DecidableEq, Repr

/-- Modelled from the spec: some job holding lock `l` is currently `doing`. -/
def lockBusy (js : List SJob) (l : String) : Bool :=
  js.any (fun j => j.lock == some l && j.status == JobState.doing)

/-- Modelled from the spec: a row is ready for claiming at time `now`:
`status = todo ∧ scheduled_at ≤ now ∧ (lock is null ∨ no doing job holds
the lock)`. -/
def readyB (now : Nat) (js : List SJob) (j : SJob) : Bool :=
  j.status == JobState.todo &&
  (match j.scheduled_at with
   | none => true
   | some t => t ≤ now) &&
  (match j.lock with
   | none => true
   | some l => !lockBusy js l)

/-- Modelled from the spec: one atomic Job Store operation performed by any
of the concurrent clients (enqueuers and workers): `enqueue` appends a fresh
`todo` row with `attempts = 0`; `claim` (the yield step of `get_jobs`)
atomically moves one ready row `todo → doing`; `finish_job` moves a `doing`
row to `succeeded`, to `failed`, or back to `todo` with `attempts`
incremented and a new `scheduled_at` (retry). Arbitrary interleavings of
concurrent claimers are arbitrary sequences of these steps. -/
inductive Step : List SJob → List SJob → Prop
  | enqueue (js : List SJob) (j : SJob)
      (hstatus : j.status = JobState.todo) (hatt : j.attempts = 0) :
      Step js (js ++ [j])
  | claim (js : List SJob) (now i : Nat) (h : i < js.length)
      (hready : readyB now js (js.get ⟨i, h⟩) = true) :
      Step js (js.set i { js.get ⟨i, h⟩ with status := JobState.doing })
  | finishDone (js : List SJob) (i : Nat) (h : i < js.length)
      (hdoing : (js.get ⟨i, h⟩).status = JobState.doing) :
      Step js (js.set i { js.get ⟨i, h⟩ with status := JobState.succeeded })
  | finishFailed (js : List SJob) (i : Nat) (h : i < js.length)
      (hdoing : (js.get ⟨i, h⟩).status = JobState.doing) :
      Step js (js.set i { js.get ⟨i, h⟩ with status := JobState.failed })
  | finishRetry (js : List SJob) (i : Nat) (t : Nat) (h : i < js.length)
      (hdoing : (js.get ⟨i, h⟩).status = JobState.doing) :
      Step js (js.set i
        { js.get ⟨i, h⟩ with
            status := JobState.todo
            attempts := (js.get ⟨i, h⟩).attempts + 1
            scheduled_at := some t })

/-- Modelled from the spec: store states reachable by any interleaving of
atomic store operations. -/
def Reach : List SJob → List SJob → Prop :=
  Relation.ReflTransGen Step

/-- Lock exclusion: no two distinct rows share a non-null lock value while
both are in `doing` status. -/
def LockExcl (js : List SJob) : Prop :=
  ∀ i k (hi : i < js.length) (hk : k < js.length), i ≠ k →
    (js.get ⟨i, hi⟩).status = JobState.doing →
    (js.get ⟨k, hk⟩).status = JobState.doing →
    (js.get ⟨i, hi⟩).lock = none ∨
      (js.get ⟨i, hi⟩).lock ≠ (js.get ⟨k, hk⟩).lock

end Store

/-- The status `process_jobs` acknowledges a job with, as a function of the
outcome of `run_job` on it: `DONE` on normal return, `ERROR` otherwise
(the `status = ERROR` default survives every raising path). -/
def statusOf (tm : TaskManager) (job : Job) : JStatus :=
  match jobOutcome tm job with
  | none => JStatus.done
  | some _ => JStatus.error

/-- Following the spec's words, for the refinement claim about the order of
operations in `run`: the store events of one `process_jobs` call are one
`get_jobs(queue)` call followed by only `finish_job` acknowledgements. -/
inductive BatchEvents (q : String) : List StoreEvent → Prop
  | mk (fins : List (Job × JStatus)) :
      BatchEvents q (StoreEvent.getJobs q :: finishEvents fins)

/-- Following the spec's words: the loop of `run` repeats `process_jobs();
if a stop was requested, exit the loop after the current batch completes;
otherwise wait_for_jobs(timeout) and repeat` — so its event trace is a
sequence of batch traces separated by single `wait` events, with no `wait`
after the final batch when the loop exits, and no other store operation.
`modelEnd` covers the model running out of supplied batches while the real
loop would keep iterating. -/
inductive LoopShape (q : String) (timeout : Int) : List StoreEvent → Prop
  | modelEnd : LoopShape q timeout []
  | lastBatch (evs : List StoreEvent) :
      BatchEvents q evs → LoopShape q timeout evs
  | cont (evs rest : List StoreEvent) :
      BatchEvents q evs → LoopShape q timeout rest →
      LoopShape q timeout (evs ++ StoreEvent.wait timeout :: rest)

/-- Following the spec's words: `run(timeout)` first subscribes via
`listen_for_jobs` on the worker's queue, then installs a shutdown handler,
then performs the loop. -/
inductive RunShape (q : String) (timeout : Int) : List StoreEvent → Prop
  | mk (t : List StoreEvent) :
      LoopShape q timeout t →
      RunShape q timeout (StoreEvent.listen q :: StoreEvent.installHandler :: t)

/-- Example clock stream: every `time.time()` call returns `0`. -/
def clock0 : Nat → Int := fun _ => 0

/-- Example clock stream: the n-th `time.time()` call returns `5 * n`
(time advances by 5 between consecutive samples). -/
def clock5 : Nat → Int := fun n => 5 * (n : Int)

/-- Signal oracle: no stop signal is ever delivered. -/
def stopNever : Nat → Bool := fun _ => false

/-- Signal oracle: a stop signal has already been delivered at the first
read of the flag (it arrived during the first job of the batch). -/
def stopNow : Nat → Bool := fun _ => true

/-- Example task that returns normally. -/
def taskOk : Task :=
  { name := "t", queue := "sums", run := fun _ => TaskOutcome.success }

/-- Example task whose execution raises an ordinary exception. -/
def taskBoom : Task :=
  { name := "b", queue := "sums", run := fun _ => TaskOutcome.raiseExc }

/-- Example task that raises `JobRetry(scheduled_at=42)`. -/
def taskRetryEx : Task :=
  { name := "r", queue := "sums", run := fun _ => TaskOutcome.raiseRetry 42 }

/-- Example registry holding the three example tasks. -/
def tmEx : TaskManager :=
  { tasks := [("t", taskOk), ("b", taskBoom), ("r", taskRetryEx)] }

/-- Example registry with no registered task. -/
def tmEmpty : TaskManager := { tasks := [] }

/-- Example job for the successful task. -/
def jobT : Job := { id := 1, task_name := "t", kwargs := [("a", 3)] }

/-- Second example job for the successful task. -/
def jobT2 : Job := { id := 2, task_name := "t", kwargs := [("a", 4)] }

/-- Example job whose task raises an ordinary exception. -/
def jobB : Job := { id := 5, task_name := "b", kwargs := [] }

/-- Example job whose task name is not registered. -/
def jobU : Job := { id := 7, task_name := "missing", kwargs := [] }

/-- Example job whose task raises `JobRetry`. -/
def jobR : Job := { id := 9, task_name := "r", kwargs := [] }

/-- Example worker over the example registry. -/
def wEx : Worker := { task_manager := tmEx, queue := "sums" }

/-- Example worker over the empty registry. -/
def wEmpty : Worker := { task_manager := tmEmpty, queue := "sums" }

/-- The `log_context` value produced by running `jobT` under `clock5` from
the initial state: `start_time` was sampled as `clock5 0 = 0`, the stored
`start_timestamp` as `clock5 1 = 5`, the end timestamp as `clock5 2 = 10`,
and `duration_seconds` as `10 - 0 = 10`. -/
def ctxT5 : LogContext :=
  { queue := "sums"
    task_name := "t"
    id := 1
    kwargs := [("a", 3)]
    start_timestamp := 5
    end_timestamp := some 10
    duration_seconds := some 10 }

/-- Example store row used to exercise the claim protocol: a `todo` job
holding lock `"a"`. -/
def jq0 : Store.SJob :=
  { task_name := "t"
    queue := "sums"
    kwargs := []
    lock := some "a"
    scheduled_at := none
    status := Store.JobState.todo
    attempts := 0 }

/-! Helper lemmas shared by the claim theorems. -/

/-- The exception outcome of `run_job` is `jobOutcome`: it depends only on
the registry and the job, not on the worker state or the clock. -/
theorem run_job_snd (tm : TaskManager) (clock : Nat → Int) (s : WorkerState)
    (job : Job) : (Worker.run_job tm clock s job).2 = jobOutcome tm job := by
  cases h : tm.lookup job.task_name with
  | none => simp [Worker.run_job, run_job_mid, jobOutcome, h]
  | some task =>
      cases ho : task.run job.kwargs <;>
        simp [Worker.run_job, run_job_mid, jobOutcome, h, ho]

/-- `run_job` never touches the `_stop_requested` flag. -/
theorem run_job_flag (tm : TaskManager) (clock : Nat → Int) (s : WorkerState)
    (job : Job) :
    (Worker.run_job tm clock s job).1.stop_requested = s.stop_requested := by
  cases h : tm.lookup job.task_name with
  | none => simp [Worker.run_job, run_job_mid, h]
  | some task =>
      cases ho : task.run job.kwargs <;>
        simp [Worker.run_job, run_job_mid, h, ho]

/-- A `TaskNotFound` outcome carries the very job being run, and means its
task name is absent from the registry. -/
theorem jobOutcome_tnf {tm : TaskManager} {job j : Job}
    (h : jobOutcome tm job = some (WorkerExc.taskNotFound j)) :
    j = job ∧ tm.lookup job.task_name = none := by
  cases hl : tm.lookup job.task_name with
  | none =>
      simp [jobOutcome, hl] at h
      exact ⟨h.symm, rfl⟩
  | some task => cases ho : task.run job.kwargs <;> simp [jobOutcome, hl, ho] at h

/-- A registered task never yields a `TaskNotFound` outcome. -/
theorem jobOutcome_not_tnf {tm : TaskManager} {job : Job}
    (h : (tm.lookup job.task_name).isSome) :
    ∀ j, jobOutcome tm job ≠ some (WorkerExc.taskNotFound j) := by
  intro j hc
  rcases jobOutcome_tnf hc with ⟨_, hnone⟩
  rw [hnone] at h
  simp at h

/-- One step of `process_jobs` when the head job's task is missing from the
registry: `run_job` raises `TaskNotFound`, the `finally` clause acknowledges
the job with status `ERROR`, and the exception propagates; the worker state
is unchanged. -/
theorem process_jobs_cons_tnf {tm : TaskManager} {job j : Job}
    (clock : Nat → Int) (stopAt : Nat → Bool) (n : Nat) (s : WorkerState)
    (rest : List Job)
    (h : jobOutcome tm job = some (WorkerExc.taskNotFound j)) :
    Worker.process_jobs tm clock stopAt n s (job :: rest) =
      (s, [(job, JStatus.error)], some (WorkerExc.taskNotFound j)) := by
  rcases jobOutcome_tnf h with ⟨hj, hnone⟩
  subst hj
  simp [Worker.process_jobs, Worker.run_job, run_job_mid, hnone, h,
    jobOutcome, hnone]

/-- One step of `process_jobs` when the head job's task is registered: the
job is acknowledged with `statusOf` and the loop either breaks (flag read
true) or recurses with the flag updated. -/
theorem process_jobs_cons_go {tm : TaskManager} {job : Job}
    (clock : Nat → Int) (stopAt : Nat → Bool) (n : Nat) (s : WorkerState)
    (rest : List Job)
    (hnf : ∀ j, jobOutcome tm job ≠ some (WorkerExc.taskNotFound j)) :
    Worker.process_jobs tm clock stopAt n s (job :: rest) =
      (if s.stop_requested || stopAt n then
        ({ (Worker.run_job tm clock s job).1 with
             stop_requested := s.stop_requested || stopAt n },
          [(job, statusOf tm job)], none)
      else
        ((Worker.process_jobs tm clock stopAt (n + 1)
            { (Worker.run_job tm clock s job).1 with
                stop_requested := s.stop_requested || stopAt n } rest).1,
          (job, statusOf tm job) ::
            (Worker.process_jobs tm clock stopAt (n + 1)
              { (Worker.run_job tm clock s job).1 with
                  stop_requested := s.stop_requested || stopAt n } rest).2.1,
          (Worker.process_jobs tm clock stopAt (n + 1)
            { (Worker.run_job tm clock s job).1 with
                stop_requested := s.stop_requested || stopAt n } rest).2.2)) := by
  cases h : jobOutcome tm job with
  | none =>
      simp only [Worker.process_jobs, run_job_snd, h, statusOf, run_job_flag]
  | some ex =>
      cases ex with
      | taskNotFound j => exact absurd h (hnf j)
      | jobError =>
          simp only [Worker.process_jobs, run_job_snd, h, statusOf, run_job_flag]

/-- The jobs acknowledged by `process_jobs` are exactly the prefix of the
yielded sequence that was consumed, in order: each consumed job is finished
exactly once. -/
theorem process_jobs_map_fst (tm : TaskManager) (clock : Nat → Int)
    (stopAt : Nat → Bool) :
    ∀ (js : List Job) (n : Nat) (s : WorkerState),
      (Worker.process_jobs tm clock stopAt n s js).2.1.map Prod.fst =
        js.take (Worker.process_jobs tm clock stopAt n s js).2.1.length := by
  intro js
  induction js with
  | nil => intro n s; simp [Worker.process_jobs]
  | cons job rest ih =>
      intro n s
      cases h : jobOutcome tm job with
      | some ex =>
          cases ex with
          | taskNotFound j =>
              rw [process_jobs_cons_tnf clock stopAt n s rest h]
              simp
          | jobError =>
              rw [process_jobs_cons_go clock stopAt n s rest
                (by intro j hc; rw [h] at hc; exact absurd hc (by simp))]
              by_cases hfl : (s.stop_requested || stopAt n) = true
              · simp [hfl]
              · simp only [Bool.not_eq_true] at hfl
                simp [hfl, ih]
      | none =>
          rw [process_jobs_cons_go clock stopAt n s rest
            (by intro j hc; rw [h] at hc; exact absurd hc (by simp))]
          by_cases hfl : (s.stop_requested || stopAt n) = true
          · simp [hfl]
          · simp only [Bool.not_eq_true] at hfl
            simp [hfl, ih]

/-- Every acknowledgement `process_jobs` records carries the status
determined by the outcome of `run_job` on that job: `DONE` on normal
return, `ERROR` on any raise. -/
theorem process_jobs_statuses (tm : TaskManager) (clock : Nat → Int)
    (stopAt : Nat → Bool) :
    ∀ (js : List Job) (n : Nat) (s : WorkerState),
      ∀ p ∈ (Worker.process_jobs tm clock stopAt n s js).2.1,
        p.2 = statusOf tm p.1 := by
  intro js
  induction js with
  | nil => intro n s p hp; simp [Worker.process_jobs] at hp
  | cons job rest ih =>
      intro n s p hp
      cases h : jobOutcome tm job with
      | some ex =>
          cases ex with
          | taskNotFound j =>
              rw [process_jobs_cons_tnf clock stopAt n s rest h] at hp
              simp at hp
              subst hp
              simp [statusOf, h]
          | jobError =>
              rw [process_jobs_cons_go clock stopAt n s rest
                (by intro j hc; rw [h] at hc; exact absurd hc (by simp))] at hp
              by_cases hfl : (s.stop_requested || stopAt n) = true
              · simp [hfl] at hp
                subst hp
                simp
              · simp only [Bool.not_eq_true] at hfl
                simp [hfl] at hp
                rcases hp with hp | hp
                · subst hp; simp
                · exact ih _ _ p hp
      | none =>
          rw [process_jobs_cons_go clock stopAt n s rest
            (by intro j hc; rw [h] at hc; exact absurd hc (by simp))] at hp
          by_cases hfl : (s.stop_requested || stopAt n) = true
          · simp [hfl] at hp
            subst hp
            simp
          · simp only [Bool.not_eq_true] at hfl
            simp [hfl] at hp
            rcases hp with hp | hp
            · subst hp; simp
            · exact ih _ _ p hp

/-- When `process_jobs` ends with an exception, that exception is a
`TaskNotFound` for an unregistered job, and the last acknowledgement made
before the exception propagated finished that very job with `ERROR`. -/
theorem process_jobs_exc (tm : TaskManager) (clock : Nat → Int)
    (stopAt : Nat → Bool) :
    ∀ (js : List Job) (n : Nat) (s : WorkerState) (ex : WorkerExc),
      (Worker.process_jobs tm clock stopAt n s js).2.2 = some ex →
      ∃ j pre, ex = WorkerExc.taskNotFound j ∧ tm.lookup j.task_name = none ∧
        (Worker.process_jobs tm clock stopAt n s js).2.1 =
          pre ++ [(j, JStatus.error)] := by
  intro js
  induction js with
  | nil => intro n s ex hex; simp [Worker.process_jobs] at hex
  | cons job rest ih =>
      intro n s ex hex
      cases h : jobOutcome tm job with
      | some e0 =>
          cases e0 with
          | taskNotFound j =>
              obtain ⟨hj, hlu⟩ := jobOutcome_tnf h
              rw [process_jobs_cons_tnf clock stopAt n s rest h] at hex ⊢
              simp at hex
              exact ⟨j, [], hex.symm, by rw [hj]; exact hlu, by simp [hj]⟩
          | jobError =>
              have hnf : ∀ j, jobOutcome tm job ≠ some (WorkerExc.taskNotFound j) := by
                intro j hc; rw [h] at hc; exact absurd hc (by simp)
              rw [process_jobs_cons_go clock stopAt n s rest hnf] at hex ⊢
              by_cases hfl : (s.stop_requested || stopAt n) = true
              · simp [hfl] at hex
              · simp only [Bool.not_eq_true] at hfl
                simp only [hfl, Bool.false_eq_true, if_false] at hex ⊢
                obtain ⟨j, pre, hej, hlu, hevs⟩ := ih _ _ _ hex
                exact ⟨j, (job, statusOf tm job) :: pre, hej, hlu, by
                  simp [hevs]⟩
      | none =>
          have hnf : ∀ j, jobOutcome tm job ≠ some (WorkerExc.taskNotFound j) := by
            intro j hc; rw [h] at hc; exact absurd hc (by simp)
          rw [process_jobs_cons_go clock stopAt n s rest hnf] at hex ⊢
          by_cases hfl : (s.stop_requested || stopAt n) = true
          · simp [hfl] at hex
          · simp only [Bool.not_eq_true] at hfl
            simp only [hfl, Bool.false_eq_true, if_false] at hex ⊢
            obtain ⟨j, pre, hej, hlu, hevs⟩ := ih _ _ _ hex
            exact ⟨j, (job, statusOf tm job) :: pre, hej, hlu, by simp [hevs]⟩

/-- When every yielded job has a registered task, no exception escapes
`process_jobs`. -/
theorem process_jobs_no_exc (tm : TaskManager) (clock : Nat → Int)
    (stopAt : Nat → Bool) :
    ∀ (js : List Job) (n : Nat) (s : WorkerState),
      (∀ j ∈ js, (tm.lookup j.task_name).isSome) →
      (Worker.process_jobs tm clock stopAt n s js).2.2 = none := by
  intro js
  induction js with
  | nil => intro n s _; simp [Worker.process_jobs]
  | cons job rest ih =>
      intro n s hknown
      have hnf := jobOutcome_not_tnf (hknown job (by simp))
      rw [process_jobs_cons_go clock stopAt n s rest hnf]
      by_cases hfl : (s.stop_requested || stopAt n) = true
      · simp [hfl]
      · simp only [Bool.not_eq_true] at hfl
        simp only [hfl, Bool.false_eq_true, if_false]
        exact ih _ _ (fun j hj => hknown j (by simp [hj]))

/-- `process_jobs` never clears the stop flag: once requested, a stop stays
requested. -/
theorem process_jobs_flag (tm : TaskManager) (clock : Nat → Int)
    (stopAt : Nat → Bool) :
    ∀ (js : List Job) (n : Nat) (s : WorkerState),
      s.stop_requested = true →
      (Worker.process_jobs tm clock stopAt n s js).1.stop_requested = true := by
  intro js
  induction js with
  | nil => intro n s hs; simpa [Worker.process_jobs]
  | cons job rest ih =>
      intro n s hs
      cases h : jobOutcome tm job with
      | some e0 =>
          cases e0 with
          | taskNotFound j =>
              rw [process_jobs_cons_tnf clock stopAt n s rest h]
              exact hs
          | jobError =>
              rw [process_jobs_cons_go clock stopAt n s rest
                (by intro j hc; rw [h] at hc; exact absurd hc (by simp))]
              simp [hs]
      | none =>
          rw [process_jobs_cons_go clock stopAt n s rest
            (by intro j hc; rw [h] at hc; exact absurd hc (by simp))]
          simp [hs]

/-- `run_loop` never clears the stop flag either. -/
theorem run_loop_flag (w : Worker) (clock : Nat → Int) (stopAt : Nat → Bool)
    (timeout : Int) :
    ∀ (bs : List (List Job)) (n : Nat) (s : WorkerState),
      s.stop_requested = true →
      (Worker.run_loop w clock stopAt timeout n s bs).1.stop_requested = true := by
  intro bs
  induction bs with
  | nil => intro n s hs; simpa [Worker.run_loop]
  | cons b rest ih =>
      intro n s hs
      have hb := process_jobs_flag w.task_manager clock stopAt b n s hs
      simp only [Worker.run_loop]
      cases hex : (Worker.process_jobs w.task_manager clock stopAt n s b).2.2 with
      | some ex => simpa [hex]
      | none => simp [hex, hb]

/-- Core of the cooperative-stop property: if the stop flag is unset when
`process_jobs` starts, reads false at the first `k` in-batch checks and true
at check `k` (the stop arrived while job `k` was in flight), and every job
in the batch has a registered task, then the batch ends without exception,
exactly `k + 1` jobs were acknowledged (the in-flight job completed and was
acknowledged; no later job was claimed), and the final state records the
stop request. -/
theorem process_jobs_stop_cut (tm : TaskManager) (clock : Nat → Int)
    (stopAt : Nat → Bool) :
    ∀ (js : List Job) (k n : Nat) (s : WorkerState),
      s.stop_requested = false →
      (∀ i, i < k → stopAt (n + i) = false) →
      stopAt (n + k) = true →
      k < js.length →
      (∀ j ∈ js, (tm.lookup j.task_name).isSome) →
      (Worker.process_jobs tm clock stopAt n s js).2.2 = none ∧
      (Worker.process_jobs tm clock stopAt n s js).2.1.length = k + 1 ∧
      (Worker.process_jobs tm clock stopAt n s js).1.stop_requested = true := by
  intro js
  induction js with
  | nil => intro k n s _ _ _ hklt; simp at hklt
  | cons job rest ih =>
      intro k n s hs hpre hk hklt hknown
      have hnf := jobOutcome_not_tnf (hknown job (by simp))
      rw [process_jobs_cons_go clock stopAt n s rest hnf]
      cases k with
      | zero =>
          have hfl : (s.stop_requested || stopAt n) = true := by
            rw [hs]
            simpa using hk
          simp [hfl]
      | succ k0 =>
          have hfl : (s.stop_requested || stopAt n) = false := by
            rw [hs]
            simpa using hpre 0 (Nat.succ_pos k0)
          simp only [hfl, Bool.false_eq_true, if_false]
          have hpre0 : ∀ i, i < k0 → stopAt (n + 1 + i) = false := by
            intro i hi
            have harith : n + 1 + i = n + (i + 1) := by omega
            rw [harith]
            exact hpre (i + 1) (by omega)
          have hk0 : stopAt (n + 1 + k0) = true := by
            have harith : n + 1 + k0 = n + (k0 + 1) := by omega
            rw [harith]
            exact hk
          have hrec := ih k0 (n + 1)
            { stop_requested := false
              log_context := (Worker.run_job tm clock s job).1.log_context
              tick := (Worker.run_job tm clock s job).1.tick }
            rfl hpre0 hk0 (by simpa using hklt)
            (fun j hj => hknown j (by simp [hj]))
          refine ⟨hrec.1, ?_, hrec.2.2⟩
          simp [hrec.2.1]

/-- The event trace produced by the loop of `run` has the shape the spec
prescribes: one batch trace per iteration, separated by single waits, with
no wait after a final batch. -/
theorem run_loop_shape (w : Worker) (clock : Nat → Int) (stopAt : Nat → Bool)
    (timeout : Int) :
    ∀ (bs : List (List Job)) (n : Nat) (s : WorkerState),
      LoopShape w.queue timeout (Worker.run_loop w clock stopAt timeout n s bs).2.1 := by
  intro bs
  induction bs with
  | nil => intro n s; simpa [Worker.run_loop] using LoopShape.modelEnd
  | cons b rest ih =>
      intro n s
      simp only [Worker.run_loop]
      cases hex : (Worker.process_jobs w.task_manager clock stopAt n s b).2.2 with
      | some ex =>
          simpa [hex] using
            LoopShape.lastBatch _ (BatchEvents.mk
              (Worker.process_jobs w.task_manager clock stopAt n s b).2.1)
      | none =>
          by_cases hfl : ((Worker.process_jobs w.task_manager clock stopAt n s b).1.stop_requested
              || stopAt (n + (Worker.process_jobs w.task_manager clock stopAt n s b).2.1.length)) = true
          · simpa [hex, hfl] using
              LoopShape.lastBatch _ (BatchEvents.mk
                (Worker.process_jobs w.task_manager clock stopAt n s b).2.1)
          · simp only [Bool.not_eq_true] at hfl
            simpa [hex, hfl] using
              LoopShape.cont _ _ (BatchEvents.mk
                (Worker.process_jobs w.task_manager clock stopAt n s b).2.1)
                (ih _ _)

/-- When the loop of `run` breaks, it is because a stop had been requested:
a `stopped` result implies the final state carries the stop flag. -/
theorem run_loop_stopped_flag (w : Worker) (clock : Nat → Int)
    (stopAt : Nat → Bool) (timeout : Int) :
    ∀ (bs : List (List Job)) (n : Nat) (s : WorkerState),
      (Worker.run_loop w clock stopAt timeout n s bs).2.2 = RunResult.stopped →
      (Worker.run_loop w clock stopAt timeout n s bs).1.stop_requested = true := by
  intro bs
  induction bs with
  | nil => intro n s hres; simp [Worker.run_loop] at hres
  | cons b rest ih =>
      intro n s hres
      simp only [Worker.run_loop] at hres ⊢
      cases hex : (Worker.process_jobs w.task_manager clock stopAt n s b).2.2 with
      | some ex => simp [hex] at hres
      | none =>
          by_cases hfl : ((Worker.process_jobs w.task_manager clock stopAt n s b).1.stop_requested
              || stopAt (n + (Worker.process_jobs w.task_manager clock stopAt n s b).2.1.length)) = true
          · simp [hex, hfl]
          · simp only [Bool.not_eq_true] at hfl
            simp only [hex, hfl, Bool.false_eq_true, if_false] at hres ⊢
            exact ih _ _ hres

namespace Store

/-- Setting a row to a non-`doing` status preserves lock exclusion. -/
theorem lockExcl_set_not_doing {js : List SJob} (h : LockExcl js)
    (i : Nat) (jd : SJob) (hnd : jd.status ≠ JobState.doing) :
    LockExcl (js.set i jd) := by
  intro a b ha hb hab hda hdb
  have ha0 : a < js.length := by simpa using ha
  have hb0 : b < js.length := by simpa using hb
  have key : ∀ (c : Nat) (hc : c < (js.set i jd).length) (hc0 : c < js.length),
      (js.set i jd).get ⟨c, hc⟩ = if c = i then jd else js.get ⟨c, hc0⟩ := by
    intro c hc hc0
    by_cases hci : c = i
    · rw [if_pos hci, List.get_eq_getElem]
      subst hci
      exact List.getElem_set_self hc
    · rw [if_neg hci, List.get_eq_getElem]
      exact List.getElem_set_ne (fun hh => hci hh.symm) _
  rw [key a ha ha0] at hda ⊢
  rw [key b hb hb0] at hdb ⊢
  by_cases hai : a = i
  · rw [if_pos hai] at hda
    exact absurd hda hnd
  · by_cases hbi : b = i
    · rw [if_pos hbi] at hdb
      exact absurd hdb hnd
    · rw [if_neg hai] at hda ⊢
      rw [if_neg hbi] at hdb ⊢
      exact h a b ha0 hb0 hab hda hdb

/-- When `lockBusy js l` is false, no row of `js` holds lock `l` in `doing`
status. -/
theorem lockBusy_false {js : List SJob} {l : String}
    (h : lockBusy js l = false) :
    ∀ j ∈ js, j.status = JobState.doing → j.lock ≠ some l := by
  intro j hj hdj hlj
  rw [lockBusy, List.any_eq_false] at h
  have hc := h j hj
  simp [hlj, hdj] at hc

/-- The atomic claim step preserves lock exclusion: a ready row is moved to
`doing` only when its lock (if any) is held by no `doing` row. -/
theorem lockExcl_claim {js : List SJob} (h : LockExcl js)
    (now i : Nat) (hi : i < js.length)
    (hready : readyB now js (js.get ⟨i, hi⟩) = true) :
    LockExcl (js.set i { js.get ⟨i, hi⟩ with status := JobState.doing }) := by
  have hlock : ∀ l, (js.get ⟨i, hi⟩).lock = some l → lockBusy js l = false := by
    intro l hl
    rw [readyB] at hready
    simp only [Bool.and_eq_true] at hready
    rcases hready with ⟨⟨_, _⟩, hlk⟩
    rw [hl] at hlk
    simpa using hlk
  intro a b ha hb hab hda hdb
  have ha0 : a < js.length := by simpa using ha
  have hb0 : b < js.length := by simpa using hb
  have key : ∀ (c : Nat)
      (hc : c < (js.set i { js.get ⟨i, hi⟩ with status := JobState.doing }).length)
      (hc0 : c < js.length),
      (js.set i { js.get ⟨i, hi⟩ with status := JobState.doing }).get ⟨c, hc⟩ =
        if c = i then { js.get ⟨i, hi⟩ with status := JobState.doing }
        else js.get ⟨c, hc0⟩ := by
    intro c hc hc0
    by_cases hci : c = i
    · rw [if_pos hci, List.get_eq_getElem]
      subst hci
      exact List.getElem_set_self hc
    · rw [if_neg hci, List.get_eq_getElem]
      exact List.getElem_set_ne (fun hh => hci hh.symm) _
  rw [key a ha ha0] at hda ⊢
  rw [key b hb hb0] at hdb ⊢
  by_cases hai : a = i
  · by_cases hbi : b = i
    · exact absurd (hai.trans hbi.symm) hab
    · rw [if_pos hai] at hda ⊢
      rw [if_neg hbi] at hdb ⊢
      cases hl : (js.get ⟨i, hi⟩).lock with
      | none => exact Or.inl rfl
      | some l =>
          refine Or.inr ?_
          intro hc
          exact lockBusy_false (hlock l hl) (js.get ⟨b, hb0⟩)
            (List.getElem_mem hb0) hdb hc.symm
  · by_cases hbi : b = i
    · rw [if_neg hai] at hda ⊢
      rw [if_pos hbi] at hdb ⊢
      cases hl : (js.get ⟨a, ha0⟩).lock with
      | none => exact Or.inl rfl
      | some l =>
          refine Or.inr ?_
          intro hc
          have hil : (js.get ⟨i, hi⟩).lock = some l := hc.symm
          exact lockBusy_false (hlock l hil) (js.get ⟨a, ha0⟩)
            (List.getElem_mem ha0) hda hl
    · rw [if_neg hai] at hda ⊢
      rw [if_neg hbi] at hdb ⊢
      exact h a b ha0 hb0 hab hda hdb

/-- Enqueueing a fresh `todo` row preserves lock exclusion. -/
theorem lockExcl_enqueue {js : List SJob} (h : LockExcl js) (j : SJob)
    (hstatus : j.status = JobState.todo) :
    LockExcl (js ++ [j]) := by
  intro a b ha hb hab hda hdb
  have hlen : (js ++ [j]).length = js.length + 1 := by simp
  have key : ∀ (c : Nat) (hc : c < (js ++ [j]).length), ¬ c < js.length →
      (js ++ [j]).get ⟨c, hc⟩ = j := by
    intro c hc hcn
    have hcj : c = js.length := by rw [hlen] at hc; omega
    rw [List.get_eq_getElem]
    subst hcj
    simp
  by_cases ha0 : a < js.length
  · by_cases hb0 : b < js.length
    · have hga : (js ++ [j]).get ⟨a, ha⟩ = js.get ⟨a, ha0⟩ := by
        rw [List.get_eq_getElem, List.get_eq_getElem]
        exact List.getElem_append_left ha0
      have hgb : (js ++ [j]).get ⟨b, hb⟩ = js.get ⟨b, hb0⟩ := by
        rw [List.get_eq_getElem, List.get_eq_getElem]
        exact List.getElem_append_left hb0
      rw [hga] at hda ⊢
      rw [hgb] at hdb ⊢
      exact h a b ha0 hb0 hab hda hdb
    · rw [key b hb hb0] at hdb
      rw [hstatus] at hdb
      exact absurd hdb (by decide)
  · rw [key a ha ha0] at hda
    rw [hstatus] at hda
    exact absurd hda (by decide)

/-- Every atomic store step preserves lock exclusion. -/
theorem step_lockExcl {js js2 : List SJob} (h : LockExcl js)
    (hs : Step js js2) : LockExcl js2 := by
  cases hs with
  | enqueue j hstatus hatt => exact lockExcl_enqueue h j hstatus
  | claim now i hi hready => exact lockExcl_claim h now i hi hready
  | finishDone i hi hdoing =>
      exact lockExcl_set_not_doing h i
        { js.get ⟨i, hi⟩ with status := JobState.succeeded } (by simp)
  | finishFailed i hi hdoing =>
      exact lockExcl_set_not_doing h i
        { js.get ⟨i, hi⟩ with status := JobState.failed } (by simp)
  | finishRetry i t hi hdoing =>
      exact lockExcl_set_not_doing h i
        { js.get ⟨i, hi⟩ with
            status := JobState.todo
            attempts := (js.get ⟨i, hi⟩).attempts + 1
            scheduled_at := some t } (by simp)

end Store


/-- When a batch ends with no exception and the stop flag set, the loop of
`run` emits the batch events, no wait, nothing further, and returns
`stopped`. -/
theorem run_loop_stop_exit (w : Worker) (clock : Nat → Int)
    (stopAt : Nat → Bool) (timeout : Int) (n : Nat) (s : WorkerState)
    (b : List Job) (bs : List (List Job))
    (hex : (Worker.process_jobs w.task_manager clock stopAt n s b).2.2 = none)
    (hfl : (Worker.process_jobs w.task_manager clock stopAt n s b).1.stop_requested = true) :
    (Worker.run_loop w clock stopAt timeout n s (b :: bs)).2 =
      (StoreEvent.getJobs w.queue ::
        finishEvents (Worker.process_jobs w.task_manager clock stopAt n s b).2.1,
       RunResult.stopped) := by
  simp only [Worker.run_loop]
  simp [hex, hfl]

/-! The claims. -/

/-- C1: every job yielded to `process_jobs` is acknowledged via `finish_job`
(in yield order, exactly the consumed prefix), with status `DONE` when
`run_job` returned normally and `ERROR` when it raised `JobError`; and
`run_job` raises `JobError` exactly when the task's execution raised an
exception (a registered task whose run did not return normally). -/
theorem claim1_statuses (tm : TaskManager) (clock : Nat → Int)
    (stopAt : Nat → Bool) (n : Nat) (s : WorkerState) (js : List Job) :
    ((Worker.process_jobs tm clock stopAt n s js).2.1.map Prod.fst =
      js.take (Worker.process_jobs tm clock stopAt n s js).2.1.length) ∧
    (∀ p ∈ (Worker.process_jobs tm clock stopAt n s js).2.1,
      ((Worker.run_job tm clock s p.1).2 = none → p.2 = JStatus.done) ∧
      ((Worker.run_job tm clock s p.1).2 = some WorkerExc.jobError →
        p.2 = JStatus.error)) ∧
    (∀ (s2 : WorkerState) (job : Job),
      (Worker.run_job tm clock s2 job).2 = some WorkerExc.jobError ↔
        ∃ task, tm.lookup job.task_name = some task ∧
          task.run job.kwargs ≠ TaskOutcome.success) := by
  refine ⟨process_jobs_map_fst tm clock stopAt js n s, ?_, ?_⟩
  · intro p hp
    have hst := process_jobs_statuses tm clock stopAt js n s p hp
    constructor
    · intro hn
      rw [run_job_snd] at hn
      rw [hst, statusOf, hn]
    · intro he
      rw [run_job_snd] at he
      rw [hst, statusOf, he]
  · intro s2 job
    rw [run_job_snd]
    cases hl : tm.lookup job.task_name with
    | none => simp [jobOutcome, hl]
    | some task =>
        cases ho : task.run job.kwargs <;> simp [jobOutcome, hl, ho]

/-- Witness for C1 at a concrete batch: one job whose task succeeds, one
whose task raises. -/
theorem claim1_statuses_witness :
    ((Worker.process_jobs tmEx clock0 stopNever 0 Worker.initState
        [jobT, jobB]).2.1.map Prod.fst =
      [jobT, jobB].take (Worker.process_jobs tmEx clock0 stopNever 0
        Worker.initState [jobT, jobB]).2.1.length) ∧
    (Worker.run_job tmEx clock0 Worker.initState jobB).2 =
      some WorkerExc.jobError :=
  ⟨(claim1_statuses tmEx clock0 stopNever 0 Worker.initState [jobT, jobB]).1,
   ((claim1_statuses tmEx clock0 stopNever 0 Worker.initState
       [jobT, jobB]).2.2 Worker.initState jobB).2 ⟨taskBoom, rfl, by decide⟩⟩

/-- C2 counterexample: a task raising `JobRetry(scheduled_at=42)` is caught
by the generic `except Exception` of `run_job`, re-raised as `JobError`, and
the job is acknowledged with status `ERROR` — it is treated exactly as a
generic failure, contrary to the claim. -/
theorem claim2_counterexample :
    (Worker.run_job tmEx clock0 Worker.initState jobR).2 =
      some WorkerExc.jobError ∧
    (Worker.process_jobs tmEx clock0 stopNever 0 Worker.initState
        [jobR]).2.1 = [(jobR, JStatus.error)] ∧
    (Worker.process_jobs tmEx clock0 stopNever 0 Worker.initState
        [jobR]).2.2 = none := by
  decide

/-- C2 amended: when a task raises `JobRetry`, the worker's catch-all
handler converts it to `JobError` and the job is finished with status
`ERROR`; the carried `scheduled_at` is ignored by the worker (there is no
special retry path in `run_job`). -/
theorem claim2_amended (tm : TaskManager) (clock : Nat → Int)
    (s : WorkerState) (job : Job) (task : Task) (t : Int)
    (hl : tm.lookup job.task_name = some task)
    (hr : task.run job.kwargs = TaskOutcome.raiseRetry t) :
    (Worker.run_job tm clock s job).2 = some WorkerExc.jobError ∧
    (∀ (stopAt : Nat → Bool) (n : Nat) (rest : List Job),
      (Worker.process_jobs tm clock stopAt n s (job :: rest)).2.1.head? =
        some (job, JStatus.error)) := by
  have ho : jobOutcome tm job = some WorkerExc.jobError := by
    simp [jobOutcome, hl, hr]
  constructor
  · rw [run_job_snd, ho]
  · intro stopAt n rest
    rw [process_jobs_cons_go clock stopAt n s rest
      (by intro j hc; rw [ho] at hc; exact absurd hc (by simp))]
    by_cases hfl : (s.stop_requested || stopAt n) = true
    · simp [hfl, statusOf, ho]
    · simp only [Bool.not_eq_true] at hfl
      simp [hfl, statusOf, ho]

/-- Witness for the amended C2 at the concrete retry-raising task. -/
theorem claim2_amended_witness :
    (Worker.run_job tmEx clock0 Worker.initState jobR).2 =
      some WorkerExc.jobError ∧
    (Worker.process_jobs tmEx clock0 stopNever 0 Worker.initState
        [jobR]).2.1.head? = some (jobR, JStatus.error) :=
  ⟨(claim2_amended tmEx clock0 Worker.initState jobR taskRetryEx 42 rfl rfl).1,
   (claim2_amended tmEx clock0 Worker.initState jobR taskRetryEx 42 rfl rfl).2
     stopNever 0 []⟩

/-- C3 counterexample: with an unregistered task name, `finish_job` is
indeed called with status `ERROR`, but `TaskNotFound` then propagates out of
`process_jobs`, and `run` ends with that exception rather than returning
normally — refuting the claim's "without the exception raising out of the
dispatch loop". -/
theorem claim3_counterexample :
    (Worker.process_jobs tmEmpty clock0 stopNever 0 Worker.initState
        [jobU]).2.1 = [(jobU, JStatus.error)] ∧
    (Worker.process_jobs tmEmpty clock0 stopNever 0 Worker.initState
        [jobU]).2.2 = some (WorkerExc.taskNotFound jobU) ∧
    (Worker.process_jobs tmEmpty clock0 stopNever 0 Worker.initState
        [jobU]).2.2 ≠ none ∧
    (Worker.run wEmpty clock0 stopNever 5 Worker.initState [[jobU]]).2.2 =
      RunResult.exc (WorkerExc.taskNotFound jobU) ∧
    (Worker.run wEmpty clock0 stopNever 5 Worker.initState [[jobU]]).2.2 ≠
      RunResult.stopped := by
  decide

/-- C3 amended: for a job whose task name is not in the registry, `run_job`
raises `TaskNotFound` and the worker acknowledges the job with status
`ERROR` (in the `finally` clause), but the exception then propagates out of
`process_jobs` and out of `run` — they do not return normally. -/
theorem claim3_amended (w : Worker) (clock : Nat → Int) (stopAt : Nat → Bool)
    (timeout : Int) (n : Nat) (s : WorkerState) (job : Job) (rest : List Job)
    (bs : List (List Job))
    (h : w.task_manager.lookup job.task_name = none) :
    Worker.process_jobs w.task_manager clock stopAt n s (job :: rest) =
      (s, [(job, JStatus.error)], some (WorkerExc.taskNotFound job)) ∧
    (Worker.run_loop w clock stopAt timeout n s ((job :: rest) :: bs)).2 =
      ([StoreEvent.getJobs w.queue, StoreEvent.finish job JStatus.error],
        RunResult.exc (WorkerExc.taskNotFound job)) ∧
    (n = 0 →
      (Worker.run w clock stopAt timeout s ((job :: rest) :: bs)).2 =
        ([StoreEvent.listen w.queue, StoreEvent.installHandler,
          StoreEvent.getJobs w.queue, StoreEvent.finish job JStatus.error],
          RunResult.exc (WorkerExc.taskNotFound job))) := by
  have ho : jobOutcome w.task_manager job =
      some (WorkerExc.taskNotFound job) := by
    simp [jobOutcome, h]
  have h1 := process_jobs_cons_tnf clock stopAt n s rest ho
  refine ⟨h1, ?_, ?_⟩
  · simp only [Worker.run_loop]
    simp [h1, finishEvents]
  · intro hn
    subst hn
    simp only [Worker.run]
    simp only [Worker.run_loop]
    simp [h1, finishEvents]

/-- Witness for the amended C3 at the concrete unregistered job. -/
theorem claim3_amended_witness :
    Worker.process_jobs wEmpty.task_manager clock0 stopNever 0
        Worker.initState [jobU] =
      (Worker.initState, [(jobU, JStatus.error)],
        some (WorkerExc.taskNotFound jobU)) ∧
    (Worker.run wEmpty clock0 stopNever 5 Worker.initState [[jobU]]).2 =
      ([StoreEvent.listen wEmpty.queue, StoreEvent.installHandler,
        StoreEvent.getJobs wEmpty.queue, StoreEvent.finish jobU JStatus.error],
        RunResult.exc (WorkerExc.taskNotFound jobU)) :=
  ⟨(claim3_amended wEmpty clock0 stopNever 5 0 Worker.initState jobU [] []
      rfl).1,
   (claim3_amended wEmpty clock0 stopNever 5 0 Worker.initState jobU [] []
      rfl).2.2 rfl⟩

/-- C4: when the stop request arrives while job `k` of a batch is in flight
(the flag reads false at the first `k` between-job checks and true at check
`k`), the batch ends with no exception, exactly the first `k + 1` yielded
jobs are acknowledged — the in-flight job runs to completion and is
acknowledged via `finish_job`, and no later ready job is claimed — the
final state records the stop, and the loop of `run` emits no further event
(no wait, no later batch) and returns `stopped`. -/
theorem claim4_stop_between_jobs (w : Worker) (clock : Nat → Int)
    (stopAt : Nat → Bool) (timeout : Int) (n k : Nat) (s : WorkerState)
    (js : List Job) (bs : List (List Job))
    (hs : s.stop_requested = false)
    (hpre : ∀ i, i < k → stopAt (n + i) = false)
    (hk : stopAt (n + k) = true)
    (hklt : k < js.length)
    (hknown : ∀ j ∈ js, (w.task_manager.lookup j.task_name).isSome) :
    (Worker.process_jobs w.task_manager clock stopAt n s js).2.2 = none ∧
    (Worker.process_jobs w.task_manager clock stopAt n s js).2.1.length =
      k + 1 ∧
    (Worker.process_jobs w.task_manager clock stopAt n s js).2.1.map
      Prod.fst = js.take (k + 1) ∧
    (Worker.process_jobs w.task_manager clock stopAt n s js).1.stop_requested =
      true ∧
    (Worker.run_loop w clock stopAt timeout n s (js :: bs)).2 =
      (StoreEvent.getJobs w.queue ::
        finishEvents (Worker.process_jobs w.task_manager clock stopAt n s js).2.1,
       RunResult.stopped) := by
  obtain ⟨hexc, hlen, hflag⟩ := process_jobs_stop_cut w.task_manager clock
    stopAt js k n s hs hpre hk hklt hknown
  refine ⟨hexc, hlen, ?_, hflag, ?_⟩
  · have hmap := process_jobs_map_fst w.task_manager clock stopAt js n s
    rw [hlen] at hmap
    exact hmap
  · exact run_loop_stop_exit w clock stopAt timeout n s js bs hexc hflag

/-- Witness for C4: the stop arrives during the first of two ready jobs;
the in-flight job is acknowledged, the second job is never claimed, and
`run` returns `stopped`. -/
theorem claim4_stop_between_jobs_witness :
    (Worker.process_jobs wEx.task_manager clock0 stopNow 0 Worker.initState
        [jobT, jobT2]).2.2 = none ∧
    (Worker.process_jobs wEx.task_manager clock0 stopNow 0 Worker.initState
        [jobT, jobT2]).2.1.length = 0 + 1 ∧
    (Worker.process_jobs wEx.task_manager clock0 stopNow 0 Worker.initState
        [jobT, jobT2]).2.1.map Prod.fst = [jobT, jobT2].take (0 + 1) ∧
    (Worker.process_jobs wEx.task_manager clock0 stopNow 0 Worker.initState
        [jobT, jobT2]).1.stop_requested = true ∧
    (Worker.run_loop wEx clock0 stopNow 5 0 Worker.initState
        [[jobT, jobT2], [jobB]]).2 =
      (StoreEvent.getJobs wEx.queue ::
        finishEvents (Worker.process_jobs wEx.task_manager clock0 stopNow 0
          Worker.initState [jobT, jobT2]).2.1,
       RunResult.stopped) :=
  claim4_stop_between_jobs wEx clock0 stopNow 5 0 0 Worker.initState
    [jobT, jobT2] [[jobB]] rfl
    (fun i hi => absurd hi (Nat.not_lt_zero i)) rfl (by decide) (by decide)

/-- C5: the event trace of `run(timeout)` is `listen_for_jobs(queue)`,
then the shutdown-handler installation, then loop iterations each emitting
one `get_jobs` call and its `finish_job` acknowledgements, separated by
single `wait_for_jobs(timeout)` events, with no wait once the loop exits
and no other store operation anywhere; moreover the loop breaks (run
returns `stopped`) only when a stop was requested. -/
theorem claim5_run_order (w : Worker) (clock : Nat → Int)
    (stopAt : Nat → Bool) (timeout : Int) (s : WorkerState)
    (batches : List (List Job)) :
    RunShape w.queue timeout (Worker.run w clock stopAt timeout s batches).2.1 ∧
    ((Worker.run w clock stopAt timeout s batches).2.2 = RunResult.stopped →
      (Worker.run w clock stopAt timeout s batches).1.stop_requested = true) := by
  constructor
  · simpa [Worker.run] using
      RunShape.mk _ (run_loop_shape w clock stopAt timeout batches 0 s)
  · intro h
    simp only [Worker.run] at h ⊢
    exact run_loop_stopped_flag w clock stopAt timeout batches 0 s h

/-- Witness for C5 on a concrete run that stops after its first batch. -/
theorem claim5_run_order_witness :
    RunShape wEx.queue 5
      (Worker.run wEx clock0 stopNow 5 Worker.initState [[jobT]]).2.1 ∧
    (Worker.run wEx clock0 stopNow 5 Worker.initState
        [[jobT]]).1.stop_requested = true :=
  ⟨(claim5_run_order wEx clock0 stopNow 5 Worker.initState [[jobT]]).1,
   (claim5_run_order wEx clock0 stopNow 5 Worker.initState [[jobT]]).2
     (by decide)⟩

/-- C6: in the job store, across all workers and under arbitrary
interleavings of the atomic store operations, at most one job with a given
non-null lock value is in `doing` status at any instant: lock exclusion is
an invariant of every reachable store state. -/
theorem claim6_lock_exclusion (st0 st : List Store.SJob)
    (h0 : Store.LockExcl st0) (hr : Store.Reach st0 st) :
    Store.LockExcl st := by
  induction hr with
  | refl => exact h0
  | tail _ hstep ih => exact Store.step_lockExcl ih hstep

/-- Witness for C6: starting from the empty store, enqueue one locked job
and claim it; the resulting state satisfies lock exclusion. -/
theorem claim6_lock_exclusion_witness :
    Store.LockExcl ([jq0].set 0 { jq0 with status := Store.JobState.doing }) :=
  claim6_lock_exclusion [] _
    (fun i _ hi _ _ _ _ => absurd hi (Nat.not_lt_zero i))
    (Relation.ReflTransGen.tail
      (Relation.ReflTransGen.tail Relation.ReflTransGen.refl
        (Store.Step.enqueue [] jq0 rfl rfl))
      (Store.Step.claim [jq0] 0 0 (by decide) (by decide)))

/-- C7: the stop flag is monotone: a fresh worker starts with it unset;
`stop` sets it, logs the current job-run context and changes nothing else;
and no worker operation (`run_job`, `process_jobs`, the loop of `run`, or
`stop` itself) ever clears it again. -/
theorem claim7_flag_monotone :
    Worker.initState.stop_requested = false ∧
    (∀ (sg : Int) (f : Option Unit) (s : WorkerState),
      (Worker.stop sg f s).1 = { s with stop_requested := true } ∧
      (Worker.stop sg f s).2 = s.log_context) ∧
    (∀ (tm : TaskManager) (clock : Nat → Int) (s : WorkerState) (job : Job),
      (Worker.run_job tm clock s job).1.stop_requested = s.stop_requested) ∧
    (∀ (tm : TaskManager) (clock : Nat → Int) (stopAt : Nat → Bool)
      (js : List Job) (n : Nat) (s : WorkerState),
      s.stop_requested = true →
      (Worker.process_jobs tm clock stopAt n s js).1.stop_requested = true) ∧
    (∀ (w : Worker) (clock : Nat → Int) (stopAt : Nat → Bool) (timeout : Int)
      (bs : List (List Job)) (n : Nat) (s : WorkerState),
      s.stop_requested = true →
      (Worker.run_loop w clock stopAt timeout n s bs).1.stop_requested = true) ∧
    (∀ (sg1 sg2 : Int) (f1 f2 : Option Unit) (s : WorkerState),
      (Worker.stop sg2 f2 (Worker.stop sg1 f1 s).1).1.stop_requested = true) := by
  refine ⟨rfl, fun sg f s => ⟨rfl, rfl⟩, run_job_flag, ?_, ?_, fun _ _ _ _ _ => rfl⟩
  · intro tm clock stopAt js n s hs
    exact process_jobs_flag tm clock stopAt js n s hs
  · intro w clock stopAt timeout bs n s hs
    exact run_loop_flag w clock stopAt timeout bs n s hs

/-- Witness for C7: a worker that received a stop request keeps the flag
through a whole batch and a whole loop run. -/
theorem claim7_flag_monotone_witness :
    (Worker.process_jobs tmEx clock0 stopNever 0
        (Worker.stop 15 none Worker.initState).1 [jobT]).1.stop_requested =
      true ∧
    (Worker.run_loop wEx clock0 stopNever 5 0
        (Worker.stop 15 none Worker.initState).1 [[jobT]]).1.stop_requested =
      true :=
  ⟨claim7_flag_monotone.2.2.2.1 tmEx clock0 stopNever [jobT] 0
      (Worker.stop 15 none Worker.initState).1 rfl,
   claim7_flag_monotone.2.2.2.2.1 wEx clock0 stopNever 5 [[jobT]] 0
      (Worker.stop 15 none Worker.initState).1 rfl⟩

/-- C8 counterexample: under a clock that advances between samples, the
recorded `duration_seconds` (computed from the `start_time` sample taken
one call before the stored `start_timestamp`) differs from end timestamp
minus the context's start timestamp; and the context is still held after
the job finished (not discarded). -/
theorem claim8_counterexample :
    (Worker.run_job tmEx clock5 Worker.initState jobT).1.log_context =
      some ctxT5 ∧
    ctxT5.start_timestamp = 5 ∧
    ctxT5.end_timestamp = some 10 ∧
    ctxT5.duration_seconds = some 10 ∧
    ctxT5.duration_seconds ≠ some ((10 : Int) - 5) ∧
    (Worker.run_job tmEx clock5 Worker.initState jobT).1.log_context ≠
      none := by
  decide

/-- C8 amended: while a job executes, the worker's context holds the job's
id, the resolved task's name, the kwargs and a start timestamp; when the
job finishes (on the success and on the error path alike) the context
additionally records the end timestamp and a duration equal to the end
timestamp minus the `start_time` sample taken immediately before the stored
start timestamp; and the context is retained after the job finishes (it is
not discarded — `stop` relies on it), until overwritten by the next job. -/
theorem claim8_amended (tm : TaskManager) (clock : Nat → Int)
    (s : WorkerState) (job : Job) (task : Task)
    (h : tm.lookup job.task_name = some task) :
    run_job_mid tm clock s job =
      some ({ s with
                log_context := some (startCtx task job (clock (s.tick + 1)))
                tick := s.tick + 2 }, task) ∧
    (startCtx task job (clock (s.tick + 1))).id = job.id ∧
    (startCtx task job (clock (s.tick + 1))).task_name = task.name ∧
    (startCtx task job (clock (s.tick + 1))).kwargs = job.kwargs ∧
    (startCtx task job (clock (s.tick + 1))).start_timestamp =
      clock (s.tick + 1) ∧
    (Worker.run_job tm clock s job).1.log_context =
      some (endCtx (startCtx task job (clock (s.tick + 1)))
        (clock s.tick) (clock (s.tick + 2))) ∧
    (endCtx (startCtx task job (clock (s.tick + 1)))
        (clock s.tick) (clock (s.tick + 2))).end_timestamp =
      some (clock (s.tick + 2)) ∧
    (endCtx (startCtx task job (clock (s.tick + 1)))
        (clock s.tick) (clock (s.tick + 2))).duration_seconds =
      some (clock (s.tick + 2) - clock s.tick) ∧
    (Worker.run_job tm clock s job).1.log_context ≠ none := by
  refine ⟨by simp [run_job_mid, h], rfl, rfl, rfl, rfl, ?_, rfl, rfl, ?_⟩
  · cases ho : task.run job.kwargs <;>
      simp [Worker.run_job, run_job_mid, h, ho]
  · cases ho : task.run job.kwargs <;>
      simp [Worker.run_job, run_job_mid, h, ho]

/-- Witness for the amended C8 at the concrete successful job. -/
theorem claim8_amended_witness :
    (Worker.run_job tmEx clock5 Worker.initState jobT).1.log_context =
      some (endCtx (startCtx taskOk jobT (clock5 1)) (clock5 0) (clock5 2)) ∧
    (Worker.run_job tmEx clock5 Worker.initState jobT).1.log_context ≠
      none :=
  ⟨(claim8_amended tmEx clock5 Worker.initState jobT taskOk
      rfl).2.2.2.2.2.1,
   (claim8_amended tmEx clock5 Worker.initState jobT taskOk
      rfl).2.2.2.2.2.2.2.2⟩

/-- C9: `process_jobs` acknowledges every consumed job exactly once, in
yield order; and when an exception other than `JobError` escapes (only
`TaskNotFound` can), the failing job was acknowledged with status `ERROR`
as the last acknowledgement before the exception propagated. -/
theorem claim9_finish_exactly_once (tm : TaskManager) (clock : Nat → Int)
    (stopAt : Nat → Bool) (n : Nat) (s : WorkerState) (js : List Job) :
    ((Worker.process_jobs tm clock stopAt n s js).2.1.map Prod.fst =
      js.take (Worker.process_jobs tm clock stopAt n s js).2.1.length) ∧
    (∀ ex, (Worker.process_jobs tm clock stopAt n s js).2.2 = some ex →
      ∃ j pre, ex = WorkerExc.taskNotFound j ∧
        (Worker.process_jobs tm clock stopAt n s js).2.1 =
          pre ++ [(j, JStatus.error)]) := by
  refine ⟨process_jobs_map_fst tm clock stopAt js n s, ?_⟩
  intro ex hex
  obtain ⟨j, pre, h1, _, h3⟩ :=
    process_jobs_exc tm clock stopAt js n s ex hex
  exact ⟨j, pre, h1, h3⟩

/-- Witness for C9: a batch whose second job has no registered task; both
jobs are acknowledged exactly once, the second with `ERROR` right before
the exception propagates. -/
theorem claim9_finish_exactly_once_witness :
    ((Worker.process_jobs tmEx clock0 stopNever 0 Worker.initState
        [jobT, jobU]).2.1.map Prod.fst =
      [jobT, jobU].take (Worker.process_jobs tmEx clock0 stopNever 0
        Worker.initState [jobT, jobU]).2.1.length) ∧
    (∃ j pre, WorkerExc.taskNotFound jobU = WorkerExc.taskNotFound j ∧
      (Worker.process_jobs tmEx clock0 stopNever 0 Worker.initState
          [jobT, jobU]).2.1 = pre ++ [(j, JStatus.error)]) :=
  ⟨(claim9_finish_exactly_once tmEx clock0 stopNever 0 Worker.initState
      [jobT, jobU]).1,
   (claim9_finish_exactly_once tmEx clock0 stopNever 0 Worker.initState
      [jobT, jobU]).2 (WorkerExc.taskNotFound jobU) (by decide)⟩

/-- C10: `stop` is idempotent: whatever the signal arguments, a second
invocation leaves the worker state exactly as the first did (its only
mutation is setting the stop flag), and logs the same retained context. -/
theorem claim10_stop_idempotent (sg1 sg2 : Int) (f1 f2 : Option Unit)
    (s : WorkerState) :
    (Worker.stop sg2 f2 (Worker.stop sg1 f1 s).1).1 =
      (Worker.stop sg1 f1 s).1 ∧
    (Worker.stop sg2 f2 (Worker.stop sg1 f1 s).1).2 =
      (Worker.stop sg1 f1 s).2 :=
  ⟨rfl, rfl⟩

end Cabbage
